import Mathlib

/-!
Shallow embedding of the grid traffic simulator in src/traffic.py.

The Python module keeps its mutable state in globals (the LCG seed, the
per-link dictionaries of in-transit buffers and stop-line queues, the
completed/sum accumulators and the car-id counter).  Here that state is the
explicit record SimState that every operation threads through.  Python string
direction tags become the closed enumeration Dir; the Python float values
0.25, 0.5 and 0.75 are exactly representable in binary floating point, so the
turn thresholds are embedded as the exact rationals 1/4, 1/2 and 3/4; the
arrival-rate threshold is a configuration field.  One ghost counter, dropped,
records arrivals whose enqueue_departure returned False (the simulator
ignores that return value, which is the documented drop policy).
-/

namespace Traffic

/-- Compass directions; source uses the string tags N, S, E, W. -/
inductive Dir : Type where
  | north : Dir
  | east : Dir
  | south : Dir
  | west : Dir
deriving DecidableEq, Repr

/-- Turn kinds; source uses the string tags left, straight, right. -/
inductive Turn : Type where
  | left : Turn
  | straight : Turn
  | right : Turn
deriving DecidableEq, Repr

/-- Grid coordinates (i, j) of an intersection; source class Node. -/
abbrev NodeId : Type := ℕ × ℕ

/-- Key of a directed link, (source node, destination node). -/
abbrev LinkKey : Type := NodeId × NodeId

/-- A car: unique id and the tick at which it entered the grid. -/
structure Car : Type where
  id : ℕ
  t_enter : ℕ
deriving DecidableEq, Repr

/-- The configuration constants at the top of traffic.py, made explicit
parameters so that theorems quantify over them.  A uniform draw is kept as
the raw 32-bit seed s, standing for the value s / 2^32; a comparison
s / 2^32 < p against a probability p is represented by the integer cut
arrival_cut = the number of seeds s with s / 2^32 below p, so the test
becomes s < arrival_cut.  For the source value ARRIVAL_RATE = 0.33 the cut
is 1417339208 (0.33 * 2^32 = 1417339207.68, and the binary double nearest
0.33 lies between 1417339207/2^32 and 1417339208/2^32, so this cut
reproduces the Python float comparison exactly). -/
structure Cfg : Type where
  n : ℕ
  total_ticks : ℕ
  cycle_ns_green : ℕ
  cycle_ew_green : ℕ
  flow_per_tick : ℕ
  link_in_transit_cap : ℕ
  queue_cap : ℕ
  base_travel_t : ℤ
  arrival_cut : ℕ
  seed : ℕ

/-- CYCLE_TOTAL = CYCLE_NS_GREEN + CYCLE_EW_GREEN. -/
def Cfg.cycle_total (cfg : Cfg) : ℕ := cfg.cycle_ns_green + cfg.cycle_ew_green

/-- The concrete configuration of the source file: N=4, TOTAL_TICKS=1000,
20/20 signal cycle, FLOW_PER_TICK=1, caps 50 and 10, BASE_TRAVEL_T=6,
ARRIVAL_RATE=0.33, initial seed 42. -/
def defaultCfg : Cfg :=
  { n := 4, total_ticks := 1000, cycle_ns_green := 20, cycle_ew_green := 20,
    flow_per_tick := 1, link_in_transit_cap := 50, queue_cap := 10,
    base_travel_t := 6, arrival_cut := 1417339208, seed := 42 }

/-- CLOCKWISE = [N, E, S, W]. -/
def CLOCKWISE : List Dir := [Dir.north, Dir.east, Dir.south, Dir.west]

/-- TURN_PROBABILITIES = [0.25, 0.50, 0.25]. -/
def TURN_PROBABILITIES : List ℚ := [1 / 4, 1 / 2, 1 / 4]

/-- The whole mutable global state of the module.  The dictionaries
in_transit and stopped become total functions from link keys (unused keys
stay at the empty list).  dropped is a ghost counter of arrivals whose
insertion failed; the source ignores the failed return value, dropping the
car. -/
structure SimState : Type where
  in_transit : LinkKey → List (Car × ℤ)
  stopped : LinkKey → List Car
  completed : ℕ
  sum_tt : ℤ
  car_id : ℕ
  seed : ℕ
  dropped : ℕ

/-- rand(): advance the LCG seed and return the new seed (the drawn value
scaled by 2^32, so the returned n stands for the uniform value n / 2^32)
together with the updated state. -/
def rand (st : SimState) : ℕ × SimState :=
  let s : ℕ := (1664525 * st.seed + 1013904223) % 4294967296
  (s, { st with seed := s })

/-- The bare LCG step on the seed. -/
def randStep (s : ℕ) : ℕ := (1664525 * s + 1013904223) % 4294967296

/-- outgoing_for(node): neighbors reachable from node with their departure
direction, in the source order north, east, south, west. -/
def outgoing_for (N : ℕ) (node : NodeId) : List (NodeId × Dir) :=
  (if 0 < node.1 then [((node.1 - 1, node.2), Dir.north)] else []) ++
  (if node.2 < N - 1 then [((node.1, node.2 + 1), Dir.east)] else []) ++
  (if node.1 < N - 1 then [((node.1 + 1, node.2), Dir.south)] else []) ++
  (if 0 < node.2 then [((node.1, node.2 - 1), Dir.west)] else [])

/-- incoming_for(node): neighbors whose link enters node, with the approach
direction of travel, in the source order north, east, south, west. -/
def incoming_for (N : ℕ) (node : NodeId) : List (NodeId × Dir) :=
  (if node.1 < N - 1 then [((node.1 + 1, node.2), Dir.north)] else []) ++
  (if 0 < node.2 then [((node.1, node.2 - 1), Dir.east)] else []) ++
  (if 0 < node.1 then [((node.1 - 1, node.2), Dir.south)] else []) ++
  (if node.2 < N - 1 then [((node.1, node.2 + 1), Dir.west)] else [])

/-- CLOCKWISE.index(d). -/
def dirIndex (d : Dir) : ℕ :=
  match d with
  | Dir.north => 0
  | Dir.east => 1
  | Dir.south => 2
  | Dir.west => 3

/-- Offset added to the clockwise index by a turn: Python computes
(idx - 1) % 4 for left, which on the range 0..3 equals (idx + 3) % 4,
(idx + 1) % 4 for right, and idx unchanged for straight. -/
def turnDelta (t : Turn) : ℕ :=
  match t with
  | Turn.left => 3
  | Turn.straight => 0
  | Turn.right => 1

/-- The cut for rand_val < 0.25 on scaled draws: 0.25 * 2^32, exact both
here and in binary floating point. -/
def TURN_LEFT_CUT : ℕ := 1073741824

/-- The cut for rand_val < 0.25 + 0.50 on scaled draws: 0.75 * 2^32, exact
both here and in binary floating point. -/
def TURN_MID_CUT : ℕ := 3221225472

/-- Classification of a uniform draw (scaled by 2^32) into a turn, the
TURN_PROBABILITIES partition of the source if-chain: the two comparisons
rand_val < 0.25 and rand_val < 0.75 on v / 2^32 become the integer cuts. -/
def turn_of (rand_val : ℕ) : Turn :=
  if rand_val < TURN_LEFT_CUT then Turn.left
  else if rand_val < TURN_MID_CUT then Turn.straight
  else Turn.right

/-- CLOCKWISE[(index of approach + delta) % 4]. -/
def apply_turn (approach : Dir) (t : Turn) : Dir :=
  CLOCKWISE.getD ((dirIndex approach + turnDelta t) % 4) Dir.north

/-- turn_direction(approach): draw rand(), classify, rotate. -/
def turn_direction (approach_direction : Dir) (st : SimState) : Dir × SimState :=
  let p := rand st
  (apply_turn approach_direction (turn_of p.1), p.2)

/-- signal_phase(t). -/
def signal_phase (cfg : Cfg) (t : ℕ) : List Dir :=
  if t % cfg.cycle_total < cfg.cycle_ns_green then [Dir.north, Dir.south]
  else [Dir.east, Dir.west]

/-- add_travel_time(): constant BASE_TRAVEL_T. -/
def add_travel_time (cfg : Cfg) : ℤ := cfg.base_travel_t

/-- is_boundary_incoming_link(src, dst).  The source compares Python ints;
the two subtractions are done in ℤ so that the N = 1 corner behaves as in
Python (where N - 1 - 1 would be -1, never a coordinate). -/
def is_boundary_incoming_link (N : ℕ) (src dst : NodeId) : Bool :=
  if src.1 = 0 ∧ dst.1 = src.1 + 1 ∧ src.2 = dst.2 then true
  else if src.1 = N - 1 ∧ (dst.1 : ℤ) = (src.1 : ℤ) - 1 ∧ src.2 = dst.2 then true
  else if src.2 = 0 ∧ dst.2 = src.2 + 1 ∧ src.1 = dst.1 then true
  else if src.2 = N - 1 ∧ (dst.2 : ℤ) = (src.2 : ℤ) - 1 ∧ src.1 = dst.1 then true
  else false

/-- The node list: for i in range(N): for j in range(N). -/
def nodes (N : ℕ) : List NodeId :=
  (List.range N).flatMap (fun i => (List.range N).map (fun j => (i, j)))

/-- The link list: every (u, v) with v an outgoing neighbor of u. -/
def links (N : ℕ) : List LinkKey :=
  (nodes N).flatMap (fun u => (outgoing_for N u).map (fun p => (u, p.1)))

/-- The set of link keys (the key set of the Python dictionaries). -/
def linkFinset (N : ℕ) : Finset LinkKey := (links N).toFinset

/-- enqueue_departure(src, dst, car): append the car with fresh travel time
if the in-transit buffer has room, else fail leaving the state unchanged. -/
def enqueue_departure (cfg : Cfg) (src dst : NodeId) (car : Car) (st : SimState) :
    Bool × SimState :=
  let buf := st.in_transit (src, dst)
  if buf.length < cfg.link_in_transit_cap then
    (true, { st with
      in_transit := Function.update st.in_transit (src, dst) (buf ++ [(car, add_travel_time cfg)]) })
  else (false, st)

/-- The while-loop of pop_to_queue_if_arrived: pop entries from the front of
the decremented buffer; an arrived car goes to the stop-line queue when it
has room, an arrived car blocked by a full queue is reinserted at the front
of the rebuilt buffer with remaining time 0, and a car still in transit is
appended at the back.  Returns (queue, rebuilt buffer, moved count). -/
def drainLoop (qcap : ℕ) : List (Car × ℤ) → List Car → List (Car × ℤ) → ℕ →
    List Car × List (Car × ℤ) × ℕ
  | [], q, tmp, moved => (q, tmp, moved)
  | (car, remaining) :: rest, q, tmp, moved =>
    if remaining ≤ 0 then
      if q.length < qcap then drainLoop qcap rest (q ++ [car]) tmp (moved + 1)
      else drainLoop qcap rest q ((car, 0) :: tmp) moved
    else drainLoop qcap rest q (tmp ++ [(car, remaining)]) moved

/-- pop_to_queue_if_arrived(src, dst): decrement every remaining time by 1,
then drain arrived cars into the stop-line queue. -/
def pop_to_queue_if_arrived (cfg : Cfg) (src dst : NodeId) (st : SimState) :
    ℕ × SimState :=
  let key : LinkKey := (src, dst)
  let buf := (st.in_transit key).map (fun p => (p.1, p.2 - 1))
  let r := drainLoop cfg.queue_cap buf (st.stopped key) [] 0
  (r.2.2, { st with
    in_transit := Function.update st.in_transit key r.2.1,
    stopped := Function.update st.stopped key r.1 })

/-- record_completion(car, t_now). -/
def record_completion (car : Car) (t_now : ℕ) (st : SimState) : SimState :=
  { st with completed := st.completed + 1,
            sum_tt := st.sum_tt + ((t_now : ℤ) - (car.t_enter : ℤ)) }

/-- Destination of a departure in direction d from node, mirroring the
guarded if-chain in serve_intersection; none means the car exits the grid. -/
def dest_of (N : ℕ) (node : NodeId) (d : Dir) : Option NodeId :=
  match d with
  | Dir.north => if 0 < node.1 then some (node.1 - 1, node.2) else none
  | Dir.south => if node.1 < N - 1 then some (node.1 + 1, node.2) else none
  | Dir.west => if 0 < node.2 then some (node.1, node.2 - 1) else none
  | Dir.east => if node.2 < N - 1 then some (node.1, node.2 + 1) else none

/-- The exit branch of serve_intersection: pop the head car from the queue
and record its completion. -/
def exit_state (t : ℕ) (u node : NodeId) (car : Car) (qrest : List Car)
    (st : SimState) : SimState :=
  record_completion car t
    { st with stopped := Function.update st.stopped (u, node) qrest }

/-- The forward branch of serve_intersection after a successful
enque_departure: pop the head car from the queue. -/
def popped_state (u node : NodeId) (qrest : List Car) (st : SimState) :
    SimState :=
  { st with stopped := Function.update st.stopped (u, node) qrest }

/-- Serving the head car of the queue on the approach (u, approach) into
node: draw the turn, compute the destination; a car whose direction leaves
the grid exits (completion recorded), otherwise it is placed on the next
link when that link has room; on a full link the car stays and service on
the approach halts (second component false), the draw having been
consumed. -/
def serve_head (cfg : Cfg) (t : ℕ) (u node : NodeId) (approach : Dir)
    (car : Car) (qrest : List Car) (st : SimState) : SimState × Bool :=
  let td := turn_direction approach st
  (dest_of cfg.n node td.1).elim
    (exit_state t u node car qrest td.2, true)
    (fun next =>
      let r := enqueue_departure cfg node next car td.2
      if r.1 then (popped_state u node qrest r.2, true) else (r.2, false))

/-- One iteration of the inner while-loop of serve_intersection for the
green approach (u, approach) into node: stop on an empty queue, otherwise
serve the head car.  Returns the new state and whether the loop
continues. -/
def serve_once (cfg : Cfg) (t : ℕ) (u node : NodeId) (approach : Dir)
    (st : SimState) : SimState × Bool :=
  match st.stopped (u, node) with
  | [] => (st, false)
  | car :: qrest => serve_head cfg t u node approach car qrest st

/-- The inner while-loop of serve_intersection for one green approach
(u, approach) into node: fuel counts the remaining allowed move attempts
(FLOW_PER_TICK minus moves made).  served is the running served counter. -/
def serveApproach (cfg : Cfg) (t : ℕ) (u node : NodeId) (approach : Dir) :
    ℕ → SimState → ℕ → SimState × ℕ
  | 0, st, served => (st, served)
  | fuel + 1, st, served =>
    let r := serve_once cfg t u node approach st
    if r.2 then serveApproach cfg t u node approach fuel r.1 (served + 1)
    else (r.1, served)

/-- serve_intersection(t, node): serve every green incoming approach in
order, threading the state and the served counter. -/
def serve_intersection (cfg : Cfg) (t : ℕ) (node : NodeId) (st : SimState) :
    SimState × ℕ :=
  let green_dirs := signal_phase cfg t
  (incoming_for cfg.n node).foldl
    (fun acc p =>
      if p.2 ∈ green_dirs then
        serveApproach cfg t p.1 node p.2 cfg.flow_per_tick acc.1 acc.2
      else acc)
    (st, 0)

/-- Advance every link (the first per-tick phase of run_simulation). -/
def advance_links (cfg : Cfg) (st : SimState) : SimState :=
  (links cfg.n).foldl (fun s k => (pop_to_queue_if_arrived cfg k.1 k.2 s).2) st

/-- Serve every intersection (the second per-tick phase). -/
def serve_all (cfg : Cfg) (t : ℕ) (st : SimState) : SimState :=
  (nodes cfg.n).foldl (fun s nd => (serve_intersection cfg t nd s).1) st

/-- Spawning one fresh car (id = the current counter, entry tick t) onto
link k: try to place it; a failed placement increments the ghost dropped
counter (the source discards the boolean). -/
def spawn_car (cfg : Cfg) (t : ℕ) (k : LinkKey) (st : SimState) : SimState :=
  let car : Car := { id := st.car_id, t_enter := t }
  let st2 := { st with car_id := st.car_id + 1 }
  let r := enqueue_departure cfg k.1 k.2 car st2
  if r.1 then r.2 else { r.2 with dropped := r.2.dropped + 1 }

/-- The arrival test for one link: on a boundary-incoming link draw, and
spawn below the arrival threshold. -/
def spawn_step (cfg : Cfg) (t : ℕ) (k : LinkKey) (st : SimState) : SimState :=
  if is_boundary_incoming_link cfg.n k.1 k.2 then
    let p := rand st
    if p.1 < cfg.arrival_cut then spawn_car cfg t k p.2 else p.2
  else st

/-- Generate boundary arrivals on every link (the third per-tick phase). -/
def gen_arrivals (cfg : Cfg) (t : ℕ) (st : SimState) : SimState :=
  (links cfg.n).foldl (fun s k => spawn_step cfg t k s) st

/-- The per-tick occupancy sample: total cars over all stop-line queues plus
all in-transit buffers (the values of the two dictionaries). -/
def count_in_system (N : ℕ) (st : SimState) : ℕ :=
  Finset.sum (linkFinset N) (fun k => (st.stopped k).length + (st.in_transit k).length)

/-- One iteration of the tick loop: advance, serve, arrivals, sample.
The accumulator is (state, sum_queue, queue_samples). -/
def stepTick (cfg : Cfg) (t : ℕ) (a : SimState × ℕ × ℕ) : SimState × ℕ × ℕ :=
  let st1 := advance_links cfg a.1
  let st2 := serve_all cfg t st1
  let st3 := gen_arrivals cfg t st2
  (st3, a.2.1 + count_in_system cfg.n st3, a.2.2 + 1)

/-- The state at the start of run_simulation: empty collections, zeroed
counters, the seed taken from the configuration. -/
def initState (cfg : Cfg) : SimState :=
  { in_transit := fun _ => [], stopped := fun _ => [], completed := 0,
    sum_tt := 0, car_id := 0, seed := cfg.seed, dropped := 0 }

/-- State of the simulation after the first t ticks of the loop. -/
def runTicks (cfg : Cfg) : ℕ → SimState × ℕ × ℕ
  | 0 => (initState cfg, 0, 0)
  | t + 1 => stepTick cfg t (runTicks cfg t)

/-- The numeric results printed by run_simulation. -/
structure Report : Type where
  completed : ℕ
  sum_tt : ℤ
  sum_queue : ℕ
  samples : ℕ
  throughput : ℚ
  mean_tt : ℚ
  mean_queued : ℚ
deriving Repr

/-- run_simulation(): run the loop for TOTAL_TICKS ticks and derive the
metrics, with the guarded divisions of the source. -/
def run_simulation (cfg : Cfg) : Report :=
  let r := runTicks cfg cfg.total_ticks
  { completed := r.1.completed, sum_tt := r.1.sum_tt, sum_queue := r.2.1,
    samples := r.2.2,
    throughput := (r.1.completed : ℚ) / (cfg.total_ticks : ℚ),
    mean_tt := if 0 < r.1.completed then (r.1.sum_tt : ℚ) / (r.1.completed : ℚ) else 0,
    mean_queued := if 0 < r.2.2 then (r.2.1 : ℚ) / (r.2.2 : ℚ) else 0 }

/-- The in-transit buffer of a link after the per-tick decrement of every
remaining time by 1 (step one of pop_to_queue_if_arrived). -/
def dec_buffer (st : SimState) (key : LinkKey) : List (Car × ℤ) :=
  (st.in_transit key).map (fun p => (p.1, p.2 - 1))

/-- Entries of a buffer that have arrived (remaining time ≤ 0). -/
def eligible (buf : List (Car × ℤ)) : List (Car × ℤ) :=
  buf.filter (fun p => decide (p.2 ≤ 0))

/-- Entries of a buffer still in transit (remaining time > 0). -/
def pending (buf : List (Car × ℤ)) : List (Car × ℤ) :=
  buf.filter (fun p => !decide (p.2 ≤ 0))

/-- A state holding only a seed; used to talk about the random draw sequence
in isolation. -/
def seedState (s : ℕ) : SimState :=
  { in_transit := fun _ => [], stopped := fun _ => [], completed := 0,
    sum_tt := 0, car_id := 0, seed := s, dropped := 0 }

/-- Conservation ledger: cars ever spawned = cars in the system + completed
+ dropped arrivals. -/
def conservation (N : ℕ) (st : SimState) : Prop :=
  st.car_id = count_in_system N st + st.completed + st.dropped

/-- Capacity: every in-transit buffer is within LINK_IN_TRANSIT_CAP and
every stop-line queue within QUEUE_CAP. -/
def capacity_ok (cfg : Cfg) (st : SimState) : Prop :=
  ∀ k : LinkKey, (st.in_transit k).length ≤ cfg.link_in_transit_cap ∧
    (st.stopped k).length ≤ cfg.queue_cap

/-- Rotation one step clockwise in the order N, E, S, W; stated from the
spec wording for comparison with apply_turn. -/
def specRotCW (d : Dir) : Dir :=
  match d with
  | Dir.north => Dir.east
  | Dir.east => Dir.south
  | Dir.south => Dir.west
  | Dir.west => Dir.north

/-- Rotation one step counter-clockwise in the order N, E, S, W; stated
from the spec wording for comparison with apply_turn. -/
def specRotCCW (d : Dir) : Dir :=
  match d with
  | Dir.north => Dir.west
  | Dir.west => Dir.south
  | Dir.south => Dir.east
  | Dir.east => Dir.north

/-- A small concrete configuration (2 by 2 grid, 2 ticks, certain arrivals,
one-tick links) on which the simulation completes trips, used to exercise
theorems with concrete hypotheses. -/
def cfgSmall : Cfg :=
  { n := 2, total_ticks := 2, cycle_ns_green := 20, cycle_ew_green := 20,
    flow_per_tick := 1, link_in_transit_cap := 50, queue_cap := 10,
    base_travel_t := 1, arrival_cut := 4294967296, seed := 0 }

/-- The default configuration with a zero-tick run (no samples, no
completions). -/
def cfgZero : Cfg :=
  { defaultCfg with total_ticks := 0 }

/-- A 3 by 3 configuration whose link capacity (and queue capacity) is zero,
so that every attempted insertion is blocked. -/
def cfgBlocked : Cfg :=
  { n := 3, total_ticks := 10, cycle_ns_green := 20, cycle_ew_green := 20,
    flow_per_tick := 1, link_in_transit_cap := 0, queue_cap := 0,
    base_travel_t := 6, arrival_cut := 1417339208, seed := 42 }

/-- A state with a single car queued on the northbound approach into the
center node (1,1) of the 3 by 3 grid, with seed 42 (whose next draw is a
straight turn). -/
def stBlocked : SimState :=
  { in_transit := fun _ => [],
    stopped := fun k => if k = ((2, 1), (1, 1)) then [{ id := 0, t_enter := 0 }] else [],
    completed := 0, sum_tt := 0, car_id := 1, seed := 42, dropped := 0 }

/-- A state with a single car queued on the westbound approach into the
center node (1,1) of the 3 by 3 grid, with seed 42. -/
def stBlockedW : SimState :=
  { in_transit := fun _ => [],
    stopped := fun k => if k = ((1, 2), (1, 1)) then [{ id := 7, t_enter := 0 }] else [],
    completed := 0, sum_tt := 0, car_id := 8, seed := 42, dropped := 0 }

/-! ### Generic helper lemmas -/

theorem foldl_preserve {α β : Type} (P : α → Prop) (f : α → β → α) :
    ∀ (l : List β) (s : α), (∀ x, x ∈ l → ∀ a, P a → P (f a x)) → P s →
      P (l.foldl f s) := by
  intro l
  induction l with
  | nil => intro s _ hs; simpa using hs
  | cons hd tl ih =>
    intro s hstep hs
    simp only [List.foldl_cons]
    exact ih (f s hd) (fun x hx a ha => hstep x (List.mem_cons_of_mem hd hx) a ha)
      (hstep hd (List.mem_cons_self hd tl) s hs)

theorem optionElim_none {α β : Type} (b : β) (f : α → β) :
    (none : Option α).elim b f = b := rfl

theorem optionElim_some {α β : Type} (a : α) (b : β) (f : α → β) :
    (some a).elim b f = f a := rfl

theorem turn_direction_sub (a : Dir) (st : SimState) :
    (turn_direction a st).2 = { st with seed := randStep st.seed } := rfl

theorem sum_update_left {α : Type} (s : Finset LinkKey) (f : LinkKey → List α)
    (g : LinkKey → ℕ) (k : LinkKey) (v : List α) (hk : k ∈ s) :
    Finset.sum s (fun x => (Function.update f k v x).length + g x) + (f k).length
      = Finset.sum s (fun x => (f x).length + g x) + v.length := by
  rw [← Finset.add_sum_erase s (fun x => (Function.update f k v x).length + g x) hk,
    ← Finset.add_sum_erase s (fun x => (f x).length + g x) hk]
  have hcongr : Finset.sum (s.erase k) (fun x => (Function.update f k v x).length + g x)
      = Finset.sum (s.erase k) (fun x => (f x).length + g x) := by
    refine Finset.sum_congr rfl (fun x hx => ?_)
    rw [Function.update_noteq (Finset.ne_of_mem_erase hx)]
  rw [hcongr, Function.update_same]
  omega

theorem sum_update_right {α : Type} (s : Finset LinkKey) (f : LinkKey → List α)
    (g : LinkKey → ℕ) (k : LinkKey) (v : List α) (hk : k ∈ s) :
    Finset.sum s (fun x => g x + (Function.update f k v x).length) + (f k).length
      = Finset.sum s (fun x => g x + (f x).length) + v.length := by
  rw [← Finset.add_sum_erase s (fun x => g x + (Function.update f k v x).length) hk,
    ← Finset.add_sum_erase s (fun x => g x + (f x).length) hk]
  have hcongr : Finset.sum (s.erase k) (fun x => g x + (Function.update f k v x).length)
      = Finset.sum (s.erase k) (fun x => g x + (f x).length) := by
    refine Finset.sum_congr rfl (fun x hx => ?_)
    rw [Function.update_noteq (Finset.ne_of_mem_erase hx)]
  rw [hcongr, Function.update_same]
  omega

theorem length_eligible_add_pending (buf : List (Car × ℤ)) :
    (eligible buf).length + (pending buf).length = buf.length := by
  induction buf with
  | nil => simp [eligible, pending]
  | cons hd tl ih =>
    by_cases h : hd.2 ≤ 0 <;> simp [eligible, pending, h] at ih ⊢ <;> omega

/-! ### The advancement loop -/

theorem drainLoop_spec (qcap : ℕ) :
    ∀ (buf : List (Car × ℤ)) (q : List Car) (tmp : List (Car × ℤ)) (m : ℕ),
    drainLoop qcap buf q tmp m =
      (q ++ ((eligible buf).take (qcap - q.length)).map Prod.fst,
       (((eligible buf).drop (qcap - q.length)).map (fun p => (p.1, (0 : ℤ)))).reverse
         ++ tmp ++ pending buf,
       m + ((eligible buf).take (qcap - q.length)).length) := by
  intro buf
  induction buf with
  | nil => intro q tmp m; simp [drainLoop, eligible, pending]
  | cons hd rest ih =>
    intro q tmp m
    obtain ⟨car, remaining⟩ := hd
    by_cases hr : remaining ≤ 0
    · by_cases hq : q.length < qcap
      · obtain ⟨r, hr2⟩ : ∃ r, qcap - q.length = r + 1 := ⟨qcap - q.length - 1, by omega⟩
        have hr3 : qcap - (q.length + 1) = r := by omega
        simp only [drainLoop, if_pos hr, if_pos hq]
        rw [ih]
        simp [eligible, pending, hr, hr2, hr3, List.append_assoc]
        omega
      · have h0 : qcap - q.length = 0 := by omega
        simp only [drainLoop, if_pos hr, if_neg hq]
        rw [ih]
        simp [eligible, pending, hr, h0, List.append_assoc]
    · simp only [drainLoop, if_neg hr]
      rw [ih]
      simp [eligible, pending, hr, List.append_assoc]

/-! ### Topology lemmas -/

theorem mem_nodes {N : ℕ} {p : NodeId} : p ∈ nodes N ↔ p.1 < N ∧ p.2 < N := by
  obtain ⟨i, j⟩ := p
  simp only [nodes, List.mem_flatMap, List.mem_map, List.mem_range]
  constructor
  · rintro ⟨a, ha, b, hb, he⟩
    rw [Prod.mk.injEq] at he
    obtain ⟨rfl, rfl⟩ := he
    exact ⟨ha, hb⟩
  · rintro ⟨h1, h2⟩
    exact ⟨i, h1, j, h2, rfl⟩

theorem mem_outgoing_iff {N : ℕ} {u v : NodeId} {d : Dir} :
    (v, d) ∈ outgoing_for N u ↔
      ((d = Dir.north ∧ 0 < u.1 ∧ v = (u.1 - 1, u.2)) ∨
       (d = Dir.east ∧ u.2 < N - 1 ∧ v = (u.1, u.2 + 1)) ∨
       (d = Dir.south ∧ u.1 < N - 1 ∧ v = (u.1 + 1, u.2)) ∨
       (d = Dir.west ∧ 0 < u.2 ∧ v = (u.1, u.2 - 1))) := by
  simp only [outgoing_for, List.mem_append]
  constructor
  · intro h
    rcases h with (h | h) | h
    · rcases h with h | h
      · split_ifs at h <;> simp_all [Prod.ext_iff]
      · split_ifs at h <;> simp_all [Prod.ext_iff]
    · split_ifs at h <;> simp_all [Prod.ext_iff]
    · split_ifs at h <;> simp_all [Prod.ext_iff]
  · intro h
    rcases h with ⟨rfl, h1, rfl⟩ | ⟨rfl, h1, rfl⟩ | ⟨rfl, h1, rfl⟩ | ⟨rfl, h1, rfl⟩
    · exact Or.inl (Or.inl (Or.inl (by simp [h1])))
    · exact Or.inl (Or.inl (Or.inr (by simp [h1])))
    · exact Or.inl (Or.inr (by simp [h1]))
    · exact Or.inr (by simp [h1])

theorem mem_incoming_iff {N : ℕ} {u v : NodeId} {d : Dir} :
    (u, d) ∈ incoming_for N v ↔
      ((d = Dir.north ∧ v.1 < N - 1 ∧ u = (v.1 + 1, v.2)) ∨
       (d = Dir.east ∧ 0 < v.2 ∧ u = (v.1, v.2 - 1)) ∨
       (d = Dir.south ∧ 0 < v.1 ∧ u = (v.1 - 1, v.2)) ∨
       (d = Dir.west ∧ v.2 < N - 1 ∧ u = (v.1, v.2 + 1))) := by
  simp only [incoming_for, List.mem_append]
  constructor
  · intro h
    rcases h with (h | h) | h
    · rcases h with h | h
      · split_ifs at h <;> simp_all [Prod.ext_iff]
      · split_ifs at h <;> simp_all [Prod.ext_iff]
    · split_ifs at h <;> simp_all [Prod.ext_iff]
    · split_ifs at h <;> simp_all [Prod.ext_iff]
  · intro h
    rcases h with ⟨rfl, h1, rfl⟩ | ⟨rfl, h1, rfl⟩ | ⟨rfl, h1, rfl⟩ | ⟨rfl, h1, rfl⟩
    · exact Or.inl (Or.inl (Or.inl (by simp [h1])))
    · exact Or.inl (Or.inl (Or.inr (by simp [h1])))
    · exact Or.inl (Or.inr (by simp [h1]))
    · exact Or.inr (by simp [h1])

theorem outgoing_incoming_dual {N : ℕ} {u v : NodeId} {d : Dir}
    (hu : u ∈ nodes N) (hv : v ∈ nodes N) :
    (v, d) ∈ outgoing_for N u ↔ (u, d) ∈ incoming_for N v := by
  obtain ⟨hu1, hu2⟩ := mem_nodes.mp hu
  obtain ⟨hv1, hv2⟩ := mem_nodes.mp hv
  rw [mem_outgoing_iff, mem_incoming_iff]
  obtain ⟨ui, uj⟩ := u
  obtain ⟨vi, vj⟩ := v
  simp only [Prod.ext_iff] at hu1 hu2 hv1 hv2 ⊢
  cases d <;> simp <;> omega

theorem mem_links_of_outgoing {N : ℕ} {u v : NodeId} {d : Dir}
    (hu : u ∈ nodes N) (h : (v, d) ∈ outgoing_for N u) : (u, v) ∈ links N := by
  simp only [links, List.mem_flatMap, List.mem_map]
  exact ⟨u, hu, (v, d), h, rfl⟩

theorem incoming_mem_nodes {N : ℕ} {u v : NodeId} {d : Dir}
    (hv : v ∈ nodes N) (h : (u, d) ∈ incoming_for N v) : u ∈ nodes N := by
  obtain ⟨hv1, hv2⟩ := mem_nodes.mp hv
  rw [mem_incoming_iff] at h
  rw [mem_nodes]
  rcases h with ⟨_, h1, rfl⟩ | ⟨_, h1, rfl⟩ | ⟨_, h1, rfl⟩ | ⟨_, h1, rfl⟩ <;>
    constructor <;> simp <;> omega

theorem mem_links_of_incoming {N : ℕ} {u v : NodeId} {d : Dir}
    (hv : v ∈ nodes N) (h : (u, d) ∈ incoming_for N v) : (u, v) ∈ links N := by
  have hu := incoming_mem_nodes hv h
  exact mem_links_of_outgoing hu ((outgoing_incoming_dual hu hv).mpr h)

theorem dest_of_mem_outgoing {N : ℕ} {node v : NodeId} {d : Dir}
    (h : dest_of N node d = some v) : (v, d) ∈ outgoing_for N node := by
  rw [mem_outgoing_iff]
  cases d <;> simp only [dest_of] at h <;> split_ifs at h <;>
    simp_all

theorem mem_links_of_dest {cfg : Cfg} {node v : NodeId} {d : Dir}
    (hnode : node ∈ nodes cfg.n) (h : dest_of cfg.n node d = some v) :
    (node, v) ∈ links cfg.n :=
  mem_links_of_outgoing hnode (dest_of_mem_outgoing h)

/-! ### Counting cars across state updates -/

theorem cis_double_update (N : ℕ) (st : SimState) (k : LinkKey)
    (Q : List Car) (T : List (Car × ℤ)) (hk : k ∈ linkFinset N) :
    count_in_system N
        { st with stopped := Function.update st.stopped k Q,
                  in_transit := Function.update st.in_transit k T }
      + (st.stopped k).length + (st.in_transit k).length
    = count_in_system N st + Q.length + T.length := by
  have h1 := sum_update_left (linkFinset N) st.stopped
    (fun x => (Function.update st.in_transit k T x).length) k Q hk
  have h2 := sum_update_right (linkFinset N) st.in_transit
    (fun x => (st.stopped x).length) k T hk
  simp only at h1 h2
  show Finset.sum (linkFinset N)
      (fun x => (Function.update st.stopped k Q x).length
        + (Function.update st.in_transit k T x).length)
      + (st.stopped k).length + (st.in_transit k).length
    = Finset.sum (linkFinset N)
        (fun x => (st.stopped x).length + (st.in_transit x).length)
      + Q.length + T.length
  omega

theorem cis_update_stopped (N : ℕ) (st : SimState) (k : LinkKey)
    (Q : List Car) (hk : k ∈ linkFinset N) :
    count_in_system N { st with stopped := Function.update st.stopped k Q }
      + (st.stopped k).length
    = count_in_system N st + Q.length := by
  have h1 := sum_update_left (linkFinset N) st.stopped
    (fun x => (st.in_transit x).length) k Q hk
  simp only at h1
  show Finset.sum (linkFinset N)
      (fun x => (Function.update st.stopped k Q x).length + (st.in_transit x).length)
      + (st.stopped k).length
    = Finset.sum (linkFinset N)
        (fun x => (st.stopped x).length + (st.in_transit x).length) + Q.length
  omega

theorem cis_update_in_transit (N : ℕ) (st : SimState) (k : LinkKey)
    (T : List (Car × ℤ)) (hk : k ∈ linkFinset N) :
    count_in_system N { st with in_transit := Function.update st.in_transit k T }
      + (st.in_transit k).length
    = count_in_system N st + T.length := by
  have h2 := sum_update_right (linkFinset N) st.in_transit
    (fun x => (st.stopped x).length) k T hk
  simp only at h2
  show Finset.sum (linkFinset N)
      (fun x => (st.stopped x).length + (Function.update st.in_transit k T x).length)
      + (st.in_transit k).length
    = Finset.sum (linkFinset N)
        (fun x => (st.stopped x).length + (st.in_transit x).length) + T.length
  omega

/-! ### Link advancement preserves the invariants -/

theorem pop_fields (cfg : Cfg) (src dst : NodeId) (st : SimState) :
    ((pop_to_queue_if_arrived cfg src dst st).2.completed = st.completed)
    ∧ ((pop_to_queue_if_arrived cfg src dst st).2.sum_tt = st.sum_tt)
    ∧ ((pop_to_queue_if_arrived cfg src dst st).2.car_id = st.car_id)
    ∧ ((pop_to_queue_if_arrived cfg src dst st).2.seed = st.seed)
    ∧ ((pop_to_queue_if_arrived cfg src dst st).2.dropped = st.dropped) := by
  simp [pop_to_queue_if_arrived]

theorem pop_cis (cfg : Cfg) (src dst : NodeId) (st : SimState)
    (hk : (src, dst) ∈ links cfg.n) :
    count_in_system cfg.n (pop_to_queue_if_arrived cfg src dst st).2
      = count_in_system cfg.n st := by
  have hk2 : (src, dst) ∈ linkFinset cfg.n := List.mem_toFinset.mpr hk
  simp only [pop_to_queue_if_arrived, drainLoop_spec]
  set dec : List (Car × ℤ) :=
    (st.in_transit (src, dst)).map (fun p => (p.1, p.2 - 1)) with hdec
  set cut : ℕ := cfg.queue_cap - (st.stopped (src, dst)).length with hcut
  have h := cis_double_update cfg.n st (src, dst)
    (st.stopped (src, dst) ++ ((eligible dec).take cut).map Prod.fst)
    ((((eligible dec).drop cut).map (fun p => (p.1, (0 : ℤ)))).reverse
      ++ [] ++ pending dec) hk2
  have hlen : dec.length = (st.in_transit (src, dst)).length := by
    simp [hdec]
  have hep := length_eligible_add_pending dec
  have htd : ((eligible dec).take cut).length + ((eligible dec).drop cut).length
      = (eligible dec).length := by
    simp only [List.length_take, List.length_drop]
    omega
  simp only [List.length_append, List.length_map, List.length_reverse,
    List.length_nil] at h ⊢
  omega

theorem pop_conservation (cfg : Cfg) (src dst : NodeId) (st : SimState)
    (hk : (src, dst) ∈ links cfg.n) (h : conservation cfg.n st) :
    conservation cfg.n (pop_to_queue_if_arrived cfg src dst st).2 := by
  have hf := pop_fields cfg src dst st
  have hc := pop_cis cfg src dst st hk
  unfold conservation at h ⊢
  omega

theorem pop_capacity (cfg : Cfg) (src dst : NodeId) (st : SimState)
    (h : capacity_ok cfg st) :
    capacity_ok cfg (pop_to_queue_if_arrived cfg src dst st).2 := by
  intro key
  obtain ⟨hit, hsp⟩ := h key
  obtain ⟨hit0, hsp0⟩ := h (src, dst)
  by_cases hkey : key = (src, dst)
  · subst hkey
    simp only [pop_to_queue_if_arrived, drainLoop_spec]
    set dec : List (Car × ℤ) :=
      (st.in_transit (src, dst)).map (fun p => (p.1, p.2 - 1)) with hdec
    set cut : ℕ := cfg.queue_cap - (st.stopped (src, dst)).length with hcut
    have hlen : dec.length = (st.in_transit (src, dst)).length := by simp [hdec]
    have hep := length_eligible_add_pending dec
    have htake : ((eligible dec).take cut).length ≤ cut := by
      simp [List.length_take]
    have htd : ((eligible dec).take cut).length + ((eligible dec).drop cut).length
        = (eligible dec).length := by
      simp only [List.length_take, List.length_drop]
      omega
    constructor
    · show (Function.update st.in_transit (src, dst)
        ((((eligible dec).drop cut).map (fun p => (p.1, (0 : ℤ)))).reverse
          ++ [] ++ pending dec) (src, dst)).length ≤ cfg.link_in_transit_cap
      rw [Function.update_same]
      simp only [List.length_append, List.length_map, List.length_reverse,
        List.length_nil]
      omega
    · show (Function.update st.stopped (src, dst)
        (st.stopped (src, dst) ++ ((eligible dec).take cut).map Prod.fst)
          (src, dst)).length ≤ cfg.queue_cap
      rw [Function.update_same]
      simp only [List.length_append, List.length_map]
      omega
  · simp only [pop_to_queue_if_arrived]
    constructor
    · show (Function.update st.in_transit (src, dst) _ key).length
        ≤ cfg.link_in_transit_cap
      rw [Function.update_noteq hkey]
      exact hit
    · show (Function.update st.stopped (src, dst) _ key).length ≤ cfg.queue_cap
      rw [Function.update_noteq hkey]
      exact hsp

/-! ### Intersection service preserves the invariants -/

theorem enqueue_departure_pos (cfg : Cfg) (src dst : NodeId) (car : Car)
    (st : SimState)
    (hroom : (st.in_transit (src, dst)).length < cfg.link_in_transit_cap) :
    enqueue_departure cfg src dst car st
      = (true,
         { st with
           in_transit := Function.update st.in_transit (src, dst)
             (st.in_transit (src, dst) ++ [(car, add_travel_time cfg)]) }) := by
  simp only [enqueue_departure]
  rw [if_pos hroom]

theorem enqueue_departure_neg (cfg : Cfg) (src dst : NodeId) (car : Car)
    (st : SimState)
    (hfull : ¬ (st.in_transit (src, dst)).length < cfg.link_in_transit_cap) :
    enqueue_departure cfg src dst car st = (false, st) := by
  simp only [enqueue_departure]
  rw [if_neg hfull]

theorem serve_head_exit (cfg : Cfg) (t : ℕ) (u node : NodeId) (approach : Dir)
    (car : Car) (qrest : List Car) (st : SimState)
    (hd : dest_of cfg.n node (turn_direction approach st).1 = none) :
    serve_head cfg t u node approach car qrest st
      = (exit_state t u node car qrest { st with seed := randStep st.seed },
         true) := by
  simp only [serve_head, hd, optionElim_none]
  rw [turn_direction_sub]

theorem serve_head_forward (cfg : Cfg) (t : ℕ) (u node : NodeId)
    (approach : Dir) (car : Car) (qrest : List Car) (st : SimState)
    (next : NodeId)
    (hd : dest_of cfg.n node (turn_direction approach st).1 = some next)
    (hroom : (st.in_transit (node, next)).length < cfg.link_in_transit_cap) :
    serve_head cfg t u node approach car qrest st
      = (popped_state u node qrest
          { st with
            seed := randStep st.seed,
            in_transit := Function.update st.in_transit (node, next)
              (st.in_transit (node, next) ++ [(car, add_travel_time cfg)]) },
         true) := by
  have hroom2 : (((turn_direction approach st).2).in_transit
      (node, next)).length < cfg.link_in_transit_cap := hroom
  simp only [serve_head, hd, optionElim_some]
  rw [enqueue_departure_pos cfg node next car (turn_direction approach st).2
    hroom2, turn_direction_sub]
  rfl

theorem serve_head_blocked (cfg : Cfg) (t : ℕ) (u node : NodeId)
    (approach : Dir) (car : Car) (qrest : List Car) (st : SimState)
    (next : NodeId)
    (hd : dest_of cfg.n node (turn_direction approach st).1 = some next)
    (hfull : ¬ (st.in_transit (node, next)).length < cfg.link_in_transit_cap) :
    serve_head cfg t u node approach car qrest st
      = ({ st with seed := randStep st.seed }, false) := by
  have hfull2 : ¬ (((turn_direction approach st).2).in_transit
      (node, next)).length < cfg.link_in_transit_cap := hfull
  simp only [serve_head, hd, optionElim_some]
  rw [enqueue_departure_neg cfg node next car (turn_direction approach st).2
    hfull2, turn_direction_sub]
  rfl

theorem serve_once_nil (cfg : Cfg) (t : ℕ) (u node : NodeId) (approach : Dir)
    (st : SimState) (hq : st.stopped (u, node) = []) :
    serve_once cfg t u node approach st = (st, false) := by
  simp only [serve_once]
  rw [hq]

theorem serve_once_cons (cfg : Cfg) (t : ℕ) (u node : NodeId) (approach : Dir)
    (st : SimState) (car : Car) (qrest : List Car)
    (hq : st.stopped (u, node) = car :: qrest) :
    serve_once cfg t u node approach st
      = serve_head cfg t u node approach car qrest st := by
  simp only [serve_once]
  rw [hq]

theorem serveApproach_zero (cfg : Cfg) (t : ℕ) (u node : NodeId)
    (approach : Dir) (st : SimState) (served : ℕ) :
    serveApproach cfg t u node approach 0 st served = (st, served) := rfl

theorem serveApproach_succ (cfg : Cfg) (t : ℕ) (u node : NodeId)
    (approach : Dir) (fuel : ℕ) (st : SimState) (served : ℕ) :
    serveApproach cfg t u node approach (fuel + 1) st served =
      (if (serve_once cfg t u node approach st).2 then
        serveApproach cfg t u node approach fuel
          (serve_once cfg t u node approach st).1 (served + 1)
      else ((serve_once cfg t u node approach st).1, served)) := rfl

theorem serveApproach_nil (cfg : Cfg) (t : ℕ) (u node : NodeId)
    (approach : Dir) (fuel : ℕ) (st : SimState) (served : ℕ)
    (hq : st.stopped (u, node) = []) :
    serveApproach cfg t u node approach (fuel + 1) st served = (st, served) := by
  rw [serveApproach_succ, serve_once_nil cfg t u node approach st hq]
  rfl

theorem serveApproach_cons_exit (cfg : Cfg) (t : ℕ) (u node : NodeId)
    (approach : Dir) (fuel : ℕ) (st : SimState) (served : ℕ) (car : Car)
    (qrest : List Car) (hq : st.stopped (u, node) = car :: qrest)
    (hd : dest_of cfg.n node (turn_direction approach st).1 = none) :
    serveApproach cfg t u node approach (fuel + 1) st served
      = serveApproach cfg t u node approach fuel
          (exit_state t u node car qrest { st with seed := randStep st.seed })
          (served + 1) := by
  rw [serveApproach_succ, serve_once_cons cfg t u node approach st car qrest hq,
    serve_head_exit cfg t u node approach car qrest st hd]
  rfl

theorem serveApproach_cons_forward (cfg : Cfg) (t : ℕ) (u node : NodeId)
    (approach : Dir) (fuel : ℕ) (st : SimState) (served : ℕ) (car : Car)
    (qrest : List Car) (next : NodeId)
    (hq : st.stopped (u, node) = car :: qrest)
    (hd : dest_of cfg.n node (turn_direction approach st).1 = some next)
    (hroom : (st.in_transit (node, next)).length < cfg.link_in_transit_cap) :
    serveApproach cfg t u node approach (fuel + 1) st served
      = serveApproach cfg t u node approach fuel
          (popped_state u node qrest
            { st with
              seed := randStep st.seed,
              in_transit := Function.update st.in_transit (node, next)
                (st.in_transit (node, next) ++ [(car, add_travel_time cfg)]) })
          (served + 1) := by
  rw [serveApproach_succ, serve_once_cons cfg t u node approach st car qrest hq,
    serve_head_forward cfg t u node approach car qrest st next hd hroom]
  rfl

theorem serveApproach_cons_blocked (cfg : Cfg) (t : ℕ) (u node : NodeId)
    (approach : Dir) (fuel : ℕ) (st : SimState) (served : ℕ) (car : Car)
    (qrest : List Car) (next : NodeId)
    (hq : st.stopped (u, node) = car :: qrest)
    (hd : dest_of cfg.n node (turn_direction approach st).1 = some next)
    (hfull : ¬ (st.in_transit (node, next)).length < cfg.link_in_transit_cap) :
    serveApproach cfg t u node approach (fuel + 1) st served
      = ({ st with seed := randStep st.seed }, served) := by
  rw [serveApproach_succ, serve_once_cons cfg t u node approach st car qrest hq,
    serve_head_blocked cfg t u node approach car qrest st next hd hfull]
  rfl


theorem cis_eq_of {N : ℕ} {st1 st2 : SimState} (h1 : st1.stopped = st2.stopped)
    (h2 : st1.in_transit = st2.in_transit) :
    count_in_system N st1 = count_in_system N st2 := by
  unfold count_in_system
  rw [h1, h2]

theorem conservation_seed (N : ℕ) (st : SimState) (s : ℕ)
    (h : conservation N st) : conservation N { st with seed := s } := by
  have hcis : count_in_system N { st with seed := s } = count_in_system N st :=
    cis_eq_of rfl rfl
  unfold conservation at h ⊢
  show st.car_id = count_in_system N { st with seed := s }
    + st.completed + st.dropped
  rw [hcis]
  exact h

theorem capacity_seed (cfg : Cfg) (st : SimState) (s : ℕ)
    (h : capacity_ok cfg st) : capacity_ok cfg { st with seed := s } := by
  intro key
  exact h key

theorem conservation_after_exit (cfg : Cfg) (u node : NodeId)
    (hk : (u, node) ∈ links cfg.n) (st : SimState) (car : Car)
    (qrest : List Car) (t s : ℕ) (hq : st.stopped (u, node) = car :: qrest)
    (h : conservation cfg.n st) :
    conservation cfg.n
      (exit_state t u node car qrest { st with seed := s }) := by
  show conservation cfg.n (record_completion car t
    { st with seed := s,
              stopped := Function.update st.stopped (u, node) qrest })
  have hk2 : (u, node) ∈ linkFinset cfg.n := List.mem_toFinset.mpr hk
  have hcis := cis_update_stopped cfg.n st (u, node) qrest hk2
  have hbridge : count_in_system cfg.n (record_completion car t
        { st with seed := s,
                  stopped := Function.update st.stopped (u, node) qrest })
      = count_in_system cfg.n
        { st with stopped := Function.update st.stopped (u, node) qrest } :=
    cis_eq_of rfl rfl
  have hc1 : (record_completion car t
      { st with seed := s,
                stopped := Function.update st.stopped (u, node) qrest }).car_id
      = st.car_id := rfl
  have hc2 : (record_completion car t
      { st with seed := s,
                stopped := Function.update st.stopped (u, node) qrest }).completed
      = st.completed + 1 := rfl
  have hc3 : (record_completion car t
      { st with seed := s,
                stopped := Function.update st.stopped (u, node) qrest }).dropped
      = st.dropped := rfl
  have hlen : (st.stopped (u, node)).length = qrest.length + 1 := by
    rw [hq]; rfl
  unfold conservation at h ⊢
  rw [hbridge, hc1, hc2, hc3]
  omega

theorem conservation_after_forward (cfg : Cfg) (u node next : NodeId)
    (hk : (u, node) ∈ links cfg.n) (hko : (node, next) ∈ links cfg.n)
    (st : SimState) (car : Car) (qrest : List Car) (s : ℕ)
    (hq : st.stopped (u, node) = car :: qrest) (h : conservation cfg.n st) :
    conservation cfg.n
      (popped_state u node qrest
        { st with
          seed := s,
          in_transit := Function.update st.in_transit (node, next)
            (st.in_transit (node, next) ++ [(car, add_travel_time cfg)]) }) := by
  show conservation cfg.n
    { st with
      seed := s,
      in_transit := Function.update st.in_transit (node, next)
        (st.in_transit (node, next) ++ [(car, add_travel_time cfg)]),
      stopped := Function.update st.stopped (u, node) qrest }
  have hk2 : (u, node) ∈ linkFinset cfg.n := List.mem_toFinset.mpr hk
  have hko2 : (node, next) ∈ linkFinset cfg.n := List.mem_toFinset.mpr hko
  set newbuf : List (Car × ℤ) :=
    st.in_transit (node, next) ++ [(car, add_travel_time cfg)] with hnewbuf
  set st1 : SimState :=
    { st with in_transit := Function.update st.in_transit (node, next) newbuf }
    with hst1
  have h1 := cis_update_in_transit cfg.n st (node, next) newbuf hko2
  rw [← hst1] at h1
  have h2 := cis_update_stopped cfg.n st1 (u, node) qrest hk2
  have hbridge : count_in_system cfg.n
      { st with
        seed := s,
        in_transit := Function.update st.in_transit (node, next) newbuf,
        stopped := Function.update st.stopped (u, node) qrest }
      = count_in_system cfg.n
        { st1 with stopped := Function.update st1.stopped (u, node) qrest } :=
    cis_eq_of rfl rfl
  have hlq : st1.stopped (u, node) = car :: qrest := hq
  have hlen : (st1.stopped (u, node)).length = qrest.length + 1 := by
    rw [hlq]; rfl
  have hl2 : newbuf.length = (st.in_transit (node, next)).length + 1 := by
    rw [hnewbuf]; simp
  unfold conservation at h ⊢
  show st.car_id = count_in_system cfg.n
      { st with
        seed := s,
        in_transit := Function.update st.in_transit (node, next) newbuf,
        stopped := Function.update st.stopped (u, node) qrest }
      + st.completed + st.dropped
  rw [hbridge]
  omega

theorem capacity_after_exit (cfg : Cfg) (u node : NodeId) (st : SimState)
    (car : Car) (qrest : List Car) (t s : ℕ)
    (hq : st.stopped (u, node) = car :: qrest) (h : capacity_ok cfg st) :
    capacity_ok cfg
      (exit_state t u node car qrest { st with seed := s }) := by
  show capacity_ok cfg (record_completion car t
    { st with seed := s,
              stopped := Function.update st.stopped (u, node) qrest })
  intro key
  obtain ⟨h1, h2⟩ := h key
  obtain ⟨_, h4⟩ := h (u, node)
  constructor
  · show (st.in_transit key).length ≤ cfg.link_in_transit_cap
    exact h1
  · show (Function.update st.stopped (u, node) qrest key).length ≤ cfg.queue_cap
    by_cases hkey : key = (u, node)
    · subst hkey
      rw [Function.update_same]
      have : (st.stopped (u, node)).length = qrest.length + 1 := by
        rw [hq]; rfl
      omega
    · rw [Function.update_noteq hkey]
      exact h2

theorem capacity_after_forward (cfg : Cfg) (u node next : NodeId) (st : SimState)
    (car : Car) (qrest : List Car) (s : ℕ)
    (hq : st.stopped (u, node) = car :: qrest)
    (hroom : (st.in_transit (node, next)).length < cfg.link_in_transit_cap)
    (h : capacity_ok cfg st) :
    capacity_ok cfg
      (popped_state u node qrest
        { st with
          seed := s,
          in_transit := Function.update st.in_transit (node, next)
            (st.in_transit (node, next) ++ [(car, add_travel_time cfg)]) }) := by
  show capacity_ok cfg
    { st with
      seed := s,
      in_transit := Function.update st.in_transit (node, next)
        (st.in_transit (node, next) ++ [(car, add_travel_time cfg)]),
      stopped := Function.update st.stopped (u, node) qrest }
  intro key
  obtain ⟨h1, h2⟩ := h key
  obtain ⟨_, h4⟩ := h (u, node)
  constructor
  · show (Function.update st.in_transit (node, next)
      (st.in_transit (node, next) ++ [(car, add_travel_time cfg)]) key).length
      ≤ cfg.link_in_transit_cap
    by_cases hkey : key = (node, next)
    · subst hkey
      rw [Function.update_same]
      simp only [List.length_append, List.length_cons, List.length_nil]
      omega
    · rw [Function.update_noteq hkey]
      exact h1
  · show (Function.update st.stopped (u, node) qrest key).length ≤ cfg.queue_cap
    by_cases hkey : key = (u, node)
    · subst hkey
      rw [Function.update_same]
      have : (st.stopped (u, node)).length = qrest.length + 1 := by
        rw [hq]; rfl
      omega
    · rw [Function.update_noteq hkey]
      exact h2

theorem serveApproach_conservation (cfg : Cfg) (t : ℕ) (u node : NodeId)
    (approach : Dir) (hk : (u, node) ∈ links cfg.n)
    (hnode : node ∈ nodes cfg.n) :
    ∀ (fuel : ℕ) (st : SimState) (served : ℕ), conservation cfg.n st →
      conservation cfg.n
        (serveApproach cfg t u node approach fuel st served).1 := by
  intro fuel
  induction fuel with
  | zero => intro st served h; exact h
  | succ fuel ih =>
    intro st served h
    rcases hq : st.stopped (u, node) with _ | ⟨car, qrest⟩
    · rw [serveApproach_nil cfg t u node approach fuel st served hq]
      exact h
    · rcases hd : dest_of cfg.n node (turn_direction approach st).1 with _ | next
      · rw [serveApproach_cons_exit cfg t u node approach fuel st served car
          qrest hq hd]
        exact ih _ _ (conservation_after_exit cfg u node hk st car qrest t
          (randStep st.seed) hq h)
      · by_cases hroom : (st.in_transit (node, next)).length
            < cfg.link_in_transit_cap
        · rw [serveApproach_cons_forward cfg t u node approach fuel st served
            car qrest next hq hd hroom]
          exact ih _ _ (conservation_after_forward cfg u node next hk
            (mem_links_of_dest hnode hd) st car qrest (randStep st.seed) hq h)
        · rw [serveApproach_cons_blocked cfg t u node approach fuel st served
            car qrest next hq hd hroom]
          exact conservation_seed cfg.n st (randStep st.seed) h

theorem serveApproach_capacity (cfg : Cfg) (t : ℕ) (u node : NodeId)
    (approach : Dir) :
    ∀ (fuel : ℕ) (st : SimState) (served : ℕ), capacity_ok cfg st →
      capacity_ok cfg (serveApproach cfg t u node approach fuel st served).1 := by
  intro fuel
  induction fuel with
  | zero => intro st served h; exact h
  | succ fuel ih =>
    intro st served h
    rcases hq : st.stopped (u, node) with _ | ⟨car, qrest⟩
    · rw [serveApproach_nil cfg t u node approach fuel st served hq]
      exact h
    · rcases hd : dest_of cfg.n node (turn_direction approach st).1 with _ | next
      · rw [serveApproach_cons_exit cfg t u node approach fuel st served car
          qrest hq hd]
        exact ih _ _ (capacity_after_exit cfg u node st car qrest t
          (randStep st.seed) hq h)
      · by_cases hroom : (st.in_transit (node, next)).length
            < cfg.link_in_transit_cap
        · rw [serveApproach_cons_forward cfg t u node approach fuel st served
            car qrest next hq hd hroom]
          exact ih _ _ (capacity_after_forward cfg u node next st car qrest
            (randStep st.seed) hq hroom h)
        · rw [serveApproach_cons_blocked cfg t u node approach fuel st served
            car qrest next hq hd hroom]
          exact capacity_seed cfg st (randStep st.seed) h

theorem serveApproach_stopped_frame (cfg : Cfg) (t : ℕ) (u node : NodeId)
    (approach : Dir) :
    ∀ (fuel : ℕ) (st : SimState) (served : ℕ) (k : LinkKey), k ≠ (u, node) →
      ((serveApproach cfg t u node approach fuel st served).1).stopped k
        = st.stopped k := by
  intro fuel
  induction fuel with
  | zero => intro st served k _; rfl
  | succ fuel ih =>
    intro st served k hkey
    rcases hq : st.stopped (u, node) with _ | ⟨car, qrest⟩
    · rw [serveApproach_nil cfg t u node approach fuel st served hq]
    · rcases hd : dest_of cfg.n node (turn_direction approach st).1 with _ | next
      · rw [serveApproach_cons_exit cfg t u node approach fuel st served car
          qrest hq hd, ih _ _ _ hkey]
        show Function.update st.stopped (u, node) qrest k = st.stopped k
        exact Function.update_noteq hkey _ _
      · by_cases hroom : (st.in_transit (node, next)).length
            < cfg.link_in_transit_cap
        · rw [serveApproach_cons_forward cfg t u node approach fuel st served
            car qrest next hq hd hroom, ih _ _ _ hkey]
          show Function.update st.stopped (u, node) qrest k = st.stopped k
          exact Function.update_noteq hkey _ _
        · rw [serveApproach_cons_blocked cfg t u node approach fuel st served
            car qrest next hq hd hroom]

theorem serveApproach_stopped_drop (cfg : Cfg) (t : ℕ) (u node : NodeId)
    (approach : Dir) :
    ∀ (fuel : ℕ) (st : SimState) (served : ℕ), ∃ m : ℕ,
      ((serveApproach cfg t u node approach fuel st served).1).stopped (u, node)
        = (st.stopped (u, node)).drop m := by
  intro fuel
  induction fuel with
  | zero => intro st served; exact ⟨0, rfl⟩
  | succ fuel ih =>
    intro st served
    rcases hq : st.stopped (u, node) with _ | ⟨car, qrest⟩
    · rw [serveApproach_nil cfg t u node approach fuel st served hq]
      refine ⟨0, ?_⟩
      rw [List.drop_zero]
      exact hq
    · rcases hd : dest_of cfg.n node (turn_direction approach st).1 with _ | next
      · rw [serveApproach_cons_exit cfg t u node approach fuel st served car
          qrest hq hd]
        obtain ⟨m, hm⟩ := ih
          (exit_state t u node car qrest { st with seed := randStep st.seed })
          (served + 1)
        refine ⟨m + 1, ?_⟩
        rw [hm]
        have hup : (exit_state t u node car qrest
            { st with seed := randStep st.seed }).stopped (u, node) = qrest := by
          show Function.update st.stopped (u, node) qrest (u, node) = qrest
          exact Function.update_same _ _ _
        rw [hup, List.drop_succ_cons]
      · by_cases hroom : (st.in_transit (node, next)).length
            < cfg.link_in_transit_cap
        · rw [serveApproach_cons_forward cfg t u node approach fuel st served
            car qrest next hq hd hroom]
          obtain ⟨m, hm⟩ := ih
            (popped_state u node qrest
              { st with
                seed := randStep st.seed,
                in_transit := Function.update st.in_transit (node, next)
                  (st.in_transit (node, next) ++ [(car, add_travel_time cfg)]) })
            (served + 1)
          refine ⟨m + 1, ?_⟩
          rw [hm]
          have hup : (popped_state u node qrest
              { st with
                seed := randStep st.seed,
                in_transit := Function.update st.in_transit (node, next)
                  (st.in_transit (node, next)
                    ++ [(car, add_travel_time cfg)]) }).stopped (u, node)
              = qrest := by
            show Function.update st.stopped (u, node) qrest (u, node) = qrest
            exact Function.update_same _ _ _
          rw [hup, List.drop_succ_cons]
        · rw [serveApproach_cons_blocked cfg t u node approach fuel st served
            car qrest next hq hd hroom]
          refine ⟨0, ?_⟩
          rw [List.drop_zero]
          exact hq

/-! ### Arrival generation preserves the invariants -/

theorem rand_fst (st : SimState) : (rand st).1 = randStep st.seed := rfl

theorem rand_sub (st : SimState) :
    (rand st).2 = { st with seed := randStep st.seed } := rfl

theorem spawn_car_ok (cfg : Cfg) (t : ℕ) (k : LinkKey) (st : SimState)
    (hroom : (st.in_transit (k.1, k.2)).length < cfg.link_in_transit_cap) :
    spawn_car cfg t k st
      = { st with
          car_id := st.car_id + 1,
          in_transit := Function.update st.in_transit (k.1, k.2)
            (st.in_transit (k.1, k.2)
              ++ [({ id := st.car_id, t_enter := t }, add_travel_time cfg)]) } := by
  have hroom2 : (({ st with car_id := st.car_id + 1 } : SimState).in_transit
      (k.1, k.2)).length < cfg.link_in_transit_cap := hroom
  simp only [spawn_car]
  rw [enqueue_departure_pos cfg k.1 k.2 { id := st.car_id, t_enter := t }
    { st with car_id := st.car_id + 1 } hroom2]
  rfl

theorem spawn_car_drop (cfg : Cfg) (t : ℕ) (k : LinkKey) (st : SimState)
    (hfull : ¬ (st.in_transit (k.1, k.2)).length < cfg.link_in_transit_cap) :
    spawn_car cfg t k st
      = { st with car_id := st.car_id + 1, dropped := st.dropped + 1 } := by
  have hfull2 : ¬ (({ st with car_id := st.car_id + 1 } : SimState).in_transit
      (k.1, k.2)).length < cfg.link_in_transit_cap := hfull
  simp only [spawn_car]
  rw [enqueue_departure_neg cfg k.1 k.2 { id := st.car_id, t_enter := t }
    { st with car_id := st.car_id + 1 } hfull2]
  rfl

theorem spawn_car_conservation (cfg : Cfg) (t : ℕ) (k : LinkKey)
    (st : SimState) (hk : k ∈ links cfg.n) (h : conservation cfg.n st) :
    conservation cfg.n (spawn_car cfg t k st) := by
  have hk2 : (k.1, k.2) ∈ linkFinset cfg.n := by
    rw [Prod.mk.eta]
    exact List.mem_toFinset.mpr hk
  by_cases hroom : (st.in_transit (k.1, k.2)).length < cfg.link_in_transit_cap
  · rw [spawn_car_ok cfg t k st hroom]
    have h1 := cis_update_in_transit cfg.n st (k.1, k.2)
      (st.in_transit (k.1, k.2)
        ++ [({ id := st.car_id, t_enter := t }, add_travel_time cfg)]) hk2
    have hbridge : count_in_system cfg.n
        { st with
          car_id := st.car_id + 1,
          in_transit := Function.update st.in_transit (k.1, k.2)
            (st.in_transit (k.1, k.2)
              ++ [({ id := st.car_id, t_enter := t }, add_travel_time cfg)]) }
        = count_in_system cfg.n
          { st with
            in_transit := Function.update st.in_transit (k.1, k.2)
              (st.in_transit (k.1, k.2)
                ++ [({ id := st.car_id, t_enter := t },
                     add_travel_time cfg)]) } :=
      cis_eq_of rfl rfl
    unfold conservation at h ⊢
    show st.car_id + 1 = count_in_system cfg.n
        { st with
          car_id := st.car_id + 1,
          in_transit := Function.update st.in_transit (k.1, k.2)
            (st.in_transit (k.1, k.2)
              ++ [({ id := st.car_id, t_enter := t }, add_travel_time cfg)]) }
        + st.completed + st.dropped
    rw [hbridge]
    simp only [List.length_append, List.length_cons, List.length_nil] at h1
    omega
  · rw [spawn_car_drop cfg t k st hroom]
    have hcis : count_in_system cfg.n
        { st with car_id := st.car_id + 1, dropped := st.dropped + 1 }
        = count_in_system cfg.n st := cis_eq_of rfl rfl
    unfold conservation at h ⊢
    show st.car_id + 1 = count_in_system cfg.n
        { st with car_id := st.car_id + 1, dropped := st.dropped + 1 }
        + st.completed + (st.dropped + 1)
    rw [hcis]
    omega

theorem spawn_car_capacity (cfg : Cfg) (t : ℕ) (k : LinkKey) (st : SimState)
    (h : capacity_ok cfg st) : capacity_ok cfg (spawn_car cfg t k st) := by
  by_cases hroom : (st.in_transit (k.1, k.2)).length < cfg.link_in_transit_cap
  · rw [spawn_car_ok cfg t k st hroom]
    intro key
    obtain ⟨h1, h2⟩ := h key
    constructor
    · show (Function.update st.in_transit (k.1, k.2)
        (st.in_transit (k.1, k.2)
          ++ [({ id := st.car_id, t_enter := t }, add_travel_time cfg)])
        key).length ≤ cfg.link_in_transit_cap
      by_cases hkey : key = (k.1, k.2)
      · subst hkey
        rw [Function.update_same]
        simp only [List.length_append, List.length_cons, List.length_nil]
        omega
      · rw [Function.update_noteq hkey]
        exact h1
    · exact h2
  · rw [spawn_car_drop cfg t k st hroom]
    intro key
    exact h key

theorem spawn_step_conservation (cfg : Cfg) (t : ℕ) (k : LinkKey)
    (st : SimState) (hk : k ∈ links cfg.n) (h : conservation cfg.n st) :
    conservation cfg.n (spawn_step cfg t k st) := by
  simp only [spawn_step, rand_fst, rand_sub]
  by_cases hb : is_boundary_incoming_link cfg.n k.1 k.2 = true
  · rw [if_pos hb]
    by_cases ha : randStep st.seed < cfg.arrival_cut
    · rw [if_pos ha]
      exact spawn_car_conservation cfg t k _ hk
        (conservation_seed cfg.n st (randStep st.seed) h)
    · rw [if_neg ha]
      exact conservation_seed cfg.n st (randStep st.seed) h
  · rw [if_neg hb]
    exact h

theorem spawn_step_capacity (cfg : Cfg) (t : ℕ) (k : LinkKey) (st : SimState)
    (h : capacity_ok cfg st) : capacity_ok cfg (spawn_step cfg t k st) := by
  simp only [spawn_step, rand_fst, rand_sub]
  by_cases hb : is_boundary_incoming_link cfg.n k.1 k.2 = true
  · rw [if_pos hb]
    by_cases ha : randStep st.seed < cfg.arrival_cut
    · rw [if_pos ha]
      exact spawn_car_capacity cfg t k _
        (capacity_seed cfg st (randStep st.seed) h)
    · rw [if_neg ha]
      exact capacity_seed cfg st (randStep st.seed) h
  · rw [if_neg hb]
    exact h

/-! ### The tick loop preserves the invariants -/

theorem serve_intersection_conservation (cfg : Cfg) (t : ℕ) (node : NodeId)
    (hnode : node ∈ nodes cfg.n) (st : SimState) (h : conservation cfg.n st) :
    conservation cfg.n (serve_intersection cfg t node st).1 := by
  simp only [serve_intersection]
  refine foldl_preserve (fun acc : SimState × ℕ => conservation cfg.n acc.1)
    _ _ _ ?_ h
  intro p hp acc hacc
  by_cases hg : p.2 ∈ signal_phase cfg t
  · simp only [if_pos hg]
    have hp2 : (p.1, p.2) ∈ incoming_for cfg.n node := by
      rw [Prod.mk.eta]
      exact hp
    exact serveApproach_conservation cfg t p.1 node p.2
      (mem_links_of_incoming hnode hp2) hnode cfg.flow_per_tick acc.1 acc.2 hacc
  · simp only [if_neg hg]
    exact hacc

theorem serve_intersection_capacity (cfg : Cfg) (t : ℕ) (node : NodeId)
    (st : SimState) (h : capacity_ok cfg st) :
    capacity_ok cfg (serve_intersection cfg t node st).1 := by
  simp only [serve_intersection]
  refine foldl_preserve (fun acc : SimState × ℕ => capacity_ok cfg acc.1)
    _ _ _ ?_ h
  intro p hp acc hacc
  by_cases hg : p.2 ∈ signal_phase cfg t
  · simp only [if_pos hg]
    exact serveApproach_capacity cfg t p.1 node p.2 cfg.flow_per_tick
      acc.1 acc.2 hacc
  · simp only [if_neg hg]
    exact hacc

theorem serve_intersection_stopped_drop (cfg : Cfg) (t : ℕ) (node : NodeId)
    (st : SimState) :
    ∀ key : LinkKey, ∃ m : ℕ,
      ((serve_intersection cfg t node st).1).stopped key
        = (st.stopped key).drop m := by
  simp only [serve_intersection]
  refine foldl_preserve
    (fun acc : SimState × ℕ => ∀ key : LinkKey, ∃ m : ℕ,
      acc.1.stopped key = (st.stopped key).drop m) _ _ _ ?_ ?_
  · intro p hp acc hacc key
    by_cases hg : p.2 ∈ signal_phase cfg t
    · simp only [if_pos hg]
      obtain ⟨m, hm⟩ := hacc key
      by_cases hkey : key = (p.1, node)
      · subst hkey
        obtain ⟨m2, hm2⟩ := serveApproach_stopped_drop cfg t p.1 node p.2
          cfg.flow_per_tick acc.1 acc.2
        refine ⟨m + m2, ?_⟩
        rw [hm2, hm, List.drop_drop]
      · refine ⟨m, ?_⟩
        rw [serveApproach_stopped_frame cfg t p.1 node p.2 cfg.flow_per_tick
          acc.1 acc.2 key hkey, hm]
    · simp only [if_neg hg]
      exact hacc key
  · intro key
    exact ⟨0, rfl⟩

theorem advance_links_conservation (cfg : Cfg) (st : SimState)
    (h : conservation cfg.n st) :
    conservation cfg.n (advance_links cfg st) := by
  unfold advance_links
  refine foldl_preserve (fun a => conservation cfg.n a) _ _ _ ?_ h
  intro k hk a ha
  have hk2 : (k.1, k.2) ∈ links cfg.n := by
    rw [Prod.mk.eta]
    exact hk
  exact pop_conservation cfg k.1 k.2 a hk2 ha

theorem advance_links_capacity (cfg : Cfg) (st : SimState)
    (h : capacity_ok cfg st) : capacity_ok cfg (advance_links cfg st) := by
  unfold advance_links
  refine foldl_preserve (fun a => capacity_ok cfg a) _ _ _ ?_ h
  intro k _ a ha
  exact pop_capacity cfg k.1 k.2 a ha

theorem serve_all_conservation (cfg : Cfg) (t : ℕ) (st : SimState)
    (h : conservation cfg.n st) : conservation cfg.n (serve_all cfg t st) := by
  unfold serve_all
  refine foldl_preserve (fun a => conservation cfg.n a) _ _ _ ?_ h
  intro nd hnd a ha
  exact serve_intersection_conservation cfg t nd hnd a ha

theorem serve_all_capacity (cfg : Cfg) (t : ℕ) (st : SimState)
    (h : capacity_ok cfg st) : capacity_ok cfg (serve_all cfg t st) := by
  unfold serve_all
  refine foldl_preserve (fun a => capacity_ok cfg a) _ _ _ ?_ h
  intro nd _ a ha
  exact serve_intersection_capacity cfg t nd a ha

theorem gen_arrivals_conservation (cfg : Cfg) (t : ℕ) (st : SimState)
    (h : conservation cfg.n st) :
    conservation cfg.n (gen_arrivals cfg t st) := by
  unfold gen_arrivals
  refine foldl_preserve (fun a => conservation cfg.n a) _ _ _ ?_ h
  intro k hk a ha
  exact spawn_step_conservation cfg t k a hk ha

theorem gen_arrivals_capacity (cfg : Cfg) (t : ℕ) (st : SimState)
    (h : capacity_ok cfg st) : capacity_ok cfg (gen_arrivals cfg t st) := by
  unfold gen_arrivals
  refine foldl_preserve (fun a => capacity_ok cfg a) _ _ _ ?_ h
  intro k _ a ha
  exact spawn_step_capacity cfg t k a ha

theorem conservation_init (cfg : Cfg) : conservation cfg.n (initState cfg) := by
  unfold conservation count_in_system initState
  simp

theorem capacity_init (cfg : Cfg) : capacity_ok cfg (initState cfg) := by
  intro key
  constructor <;> simp [initState]

theorem runTicks_conservation (cfg : Cfg) :
    ∀ T : ℕ, conservation cfg.n (runTicks cfg T).1 := by
  intro T
  induction T with
  | zero => exact conservation_init cfg
  | succ T ih =>
    show conservation cfg.n (stepTick cfg T (runTicks cfg T)).1
    unfold stepTick
    exact gen_arrivals_conservation cfg T _
      (serve_all_conservation cfg T _
        (advance_links_conservation cfg _ ih))

theorem runTicks_capacity (cfg : Cfg) :
    ∀ T : ℕ, capacity_ok cfg (runTicks cfg T).1 := by
  intro T
  induction T with
  | zero => exact capacity_init cfg
  | succ T ih =>
    show capacity_ok cfg (stepTick cfg T (runTicks cfg T)).1
    unfold stepTick
    exact gen_arrivals_capacity cfg T _
      (serve_all_capacity cfg T _
        (advance_links_capacity cfg _ ih))

/-! ### The claims -/

/-- C1: car conservation.  At every tick boundary of the simulation loop the
number of cars ever spawned (the car-id counter) equals the number currently
in an in-transit buffer or a stop-line queue (count_in_system), plus the
completed count, plus the number of arrivals dropped because the boundary
link buffer was full (the ghost dropped counter); so no car is duplicated or
lost except by the documented arrival-drop policy. -/
theorem car_conservation (cfg : Cfg) (T : ℕ) :
    (runTicks cfg T).1.car_id
      = count_in_system cfg.n (runTicks cfg T).1
        + (runTicks cfg T).1.completed + (runTicks cfg T).1.dropped :=
  runTicks_conservation cfg T

/-- C2: capacity invariant.  At every tick boundary every in-transit buffer
holds at most LINK_IN_TRANSIT_CAP entries and every stop-line queue at most
QUEUE_CAP cars; an insertion into a full buffer fails leaving the state
unchanged, and an arrived car meeting a full queue is retained (reinserted
in the rebuilt buffer) rather than truncating anything. -/
theorem capacity_invariant (cfg : Cfg) :
    (∀ (T : ℕ) (k : LinkKey),
      (((runTicks cfg T).1.in_transit k).length ≤ cfg.link_in_transit_cap)
      ∧ (((runTicks cfg T).1.stopped k).length ≤ cfg.queue_cap))
    ∧ (∀ (src dst : NodeId) (car : Car) (st : SimState),
        cfg.link_in_transit_cap ≤ (st.in_transit (src, dst)).length →
        enqueue_departure cfg src dst car st = (false, st))
    ∧ (∀ (buf : List (Car × ℤ)) (q : List Car) (tmp : List (Car × ℤ))
        (m : ℕ) (car : Car) (rem : ℤ), rem ≤ 0 → cfg.queue_cap ≤ q.length →
        drainLoop cfg.queue_cap ((car, rem) :: buf) q tmp m
          = drainLoop cfg.queue_cap buf q ((car, 0) :: tmp) m) := by
  refine ⟨fun T k => runTicks_capacity cfg T k, ?_, ?_⟩
  · intro src dst car st h
    exact enqueue_departure_neg cfg src dst car st (by omega)
  · intro buf q tmp m car rem h1 h2
    simp only [drainLoop, if_pos h1]
    rw [if_neg (by omega)]

/-- Witness for C2: with zero capacities, a concrete enqueue fails leaving
the state unchanged, and a concrete arrived car blocked by the full queue is
retained at the head of the rebuilt buffer. -/
theorem capacity_invariant_w :
    enqueue_departure cfgBlocked (1, 1) (0, 1) { id := 0, t_enter := 0 }
        stBlocked = (false, stBlocked)
    ∧ drainLoop cfgBlocked.queue_cap [({ id := 1, t_enter := 0 }, 0)] [] [] 0
        = drainLoop cfgBlocked.queue_cap [] []
            [({ id := 1, t_enter := 0 }, 0)] 0 :=
  ⟨(capacity_invariant cfgBlocked).2.1 (1, 1) (0, 1) { id := 0, t_enter := 0 }
      stBlocked (by decide),
   (capacity_invariant cfgBlocked).2.2 [] [] [] 0 { id := 1, t_enter := 0 } 0
      (by decide) (by decide)⟩

/-- C3: link advancement with backpressure.  Advancing a link decrements
every remaining time by 1 (dec_buffer); the arrived entries (eligible) move
to the stop-line queue in their original order while the queue has room
(take of the room left); every arrived car blocked by the full queue is
reinserted at the front of the rebuilt buffer with remaining time 0 (the
reversed drop, front-insertion order), followed by the still-in-transit
cars (pending) in their original relative order; the returned count is the
number of cars moved. -/
theorem link_advancement_spec (cfg : Cfg) (src dst : NodeId) (st : SimState) :
    ((pop_to_queue_if_arrived cfg src dst st).2.stopped (src, dst)
        = st.stopped (src, dst)
          ++ ((eligible (dec_buffer st (src, dst))).take
              (cfg.queue_cap - (st.stopped (src, dst)).length)).map Prod.fst)
    ∧ ((pop_to_queue_if_arrived cfg src dst st).2.in_transit (src, dst)
        = (((eligible (dec_buffer st (src, dst))).drop
            (cfg.queue_cap - (st.stopped (src, dst)).length)).map
              (fun p => (p.1, (0 : ℤ)))).reverse
          ++ pending (dec_buffer st (src, dst)))
    ∧ ((pop_to_queue_if_arrived cfg src dst st).1
        = ((eligible (dec_buffer st (src, dst))).take
            (cfg.queue_cap - (st.stopped (src, dst)).length)).length) := by
  simp only [pop_to_queue_if_arrived, drainLoop_spec, dec_buffer]
  refine ⟨?_, ?_, Nat.zero_add _⟩
  · show Function.update st.stopped (src, dst)
      (st.stopped (src, dst)
        ++ ((eligible ((st.in_transit (src, dst)).map
            (fun p => (p.1, p.2 - 1)))).take
          (cfg.queue_cap - (st.stopped (src, dst)).length)).map Prod.fst)
      (src, dst) = _
    rw [Function.update_same]
  · show Function.update st.in_transit (src, dst)
      ((((eligible ((st.in_transit (src, dst)).map
            (fun p => (p.1, p.2 - 1)))).drop
          (cfg.queue_cap - (st.stopped (src, dst)).length)).map
            (fun p => (p.1, (0 : ℤ)))).reverse
        ++ [] ++ pending ((st.in_transit (src, dst)).map
            (fun p => (p.1, p.2 - 1))))
      (src, dst) = _
    rw [Function.update_same, List.append_nil]

/-- C4: determinism.  Two runs of the simulation with identical
configuration (which includes the seed) produce identical completed count,
travel-time sum and occupancy sum; the scenario seed 42, N = 4,
TOTAL_TICKS = 1000 with the default rates is the witness instance. -/
theorem run_deterministic (c1 c2 : Cfg) (h : c1 = c2) :
    (run_simulation c1).completed = (run_simulation c2).completed
    ∧ (run_simulation c1).sum_tt = (run_simulation c2).sum_tt
    ∧ (run_simulation c1).sum_queue = (run_simulation c2).sum_queue := by
  subst h
  exact ⟨rfl, rfl, rfl⟩

/-- Witness for C4: the source scenario, run twice, is bit-identical. -/
theorem run_deterministic_w :
    (run_simulation defaultCfg).completed
        = (run_simulation defaultCfg).completed
    ∧ (run_simulation defaultCfg).sum_tt = (run_simulation defaultCfg).sum_tt
    ∧ (run_simulation defaultCfg).sum_queue
        = (run_simulation defaultCfg).sum_queue :=
  run_deterministic defaultCfg defaultCfg rfl

/-- C5: blocked-approach halt and FIFO fairness.  (1) serve_intersection
only ever removes cars from the front of each stop-line queue (the result
is a drop of the original), so a car that entered a queue earlier is served
no later than one that entered after it; (2) when the head car of an
approach draws a full destination link, the approach queue is left exactly
as it was and no car is served from it for the rest of the tick; (3) an
approach loop never touches the queue of any other approach, so the other
approaches of the same intersection are served as usual. -/
theorem blocked_approach_fifo (cfg : Cfg) (t : ℕ) (node : NodeId) :
    (∀ (st : SimState) (key : LinkKey), ∃ m : ℕ,
      ((serve_intersection cfg t node st).1).stopped key
        = (st.stopped key).drop m)
    ∧ (∀ (u : NodeId) (approach : Dir) (fuel : ℕ) (st : SimState)
        (served : ℕ) (car : Car) (qrest : List Car) (next : NodeId),
        st.stopped (u, node) = car :: qrest →
        dest_of cfg.n node (turn_direction approach st).1 = some next →
        cfg.link_in_transit_cap ≤ (st.in_transit (node, next)).length →
        ((serveApproach cfg t u node approach (fuel + 1) st served).1).stopped
            (u, node) = car :: qrest
        ∧ (serveApproach cfg t u node approach (fuel + 1) st served).2
            = served)
    ∧ (∀ (u : NodeId) (approach : Dir) (fuel : ℕ) (st : SimState)
        (served : ℕ) (key : LinkKey), key ≠ (u, node) →
        ((serveApproach cfg t u node approach fuel st served).1).stopped key
          = st.stopped key) := by
  refine ⟨fun st key => serve_intersection_stopped_drop cfg t node st key,
    ?_, fun u approach fuel st served key hk =>
      serveApproach_stopped_frame cfg t u node approach fuel st served key hk⟩
  intro u approach fuel st served car qrest next hq hd hfull
  rw [serveApproach_cons_blocked cfg t u node approach fuel st served car
    qrest next hq hd (by omega)]
  constructor
  · show st.stopped (u, node) = car :: qrest
    exact hq
  · rfl

/-- Witness for C5: a concrete blocked head car (zero link capacity) stays
at the head of its queue and nothing is served from the approach. -/
theorem blocked_approach_fifo_w :
    ((serveApproach cfgBlocked 0 (1, 2) (1, 1) Dir.west 1 stBlockedW 0).1).stopped
        ((1, 2), (1, 1)) = [{ id := 7, t_enter := 0 }]
    ∧ (serveApproach cfgBlocked 0 (1, 2) (1, 1) Dir.west 1 stBlockedW 0).2
        = 0 :=
  (blocked_approach_fifo cfgBlocked 0 (1, 1)).2.1 (1, 2) Dir.west 0 stBlockedW
    0 { id := 7, t_enter := 0 } [] (1, 0) (by decide) (by decide) (by decide)

/-- C7: topology inverse.  For in-grid intersections u and v, (v, d) lies in
outgoing_for u exactly when (u, d) lies in incoming_for v; both functions
are pure Lean functions of their arguments. -/
theorem topology_inverse (N : ℕ) (u v : NodeId) (d : Dir)
    (hu : u ∈ nodes N) (hv : v ∈ nodes N) :
    (v, d) ∈ outgoing_for N u ↔ (u, d) ∈ incoming_for N v :=
  outgoing_incoming_dual hu hv

/-- Witness for C7: a concrete adjacent pair on the 2 by 2 grid. -/
theorem topology_inverse_w :
    (((0, 1), Dir.east) ∈ outgoing_for 2 (0, 0))
      ↔ (((0, 0), Dir.east) ∈ incoming_for 2 (0, 1)) :=
  topology_inverse 2 (0, 0) (0, 1) Dir.east (by decide) (by decide)

/-- C9: signal correctness.  With both green durations equal to 20, the
phase is exactly [north, south] when t mod 40 is below 20 and exactly
[east, west] otherwise. -/
theorem signal_correctness (cfg : Cfg) (t : ℕ) (hns : cfg.cycle_ns_green = 20)
    (hew : cfg.cycle_ew_green = 20) :
    (t % 40 < 20 → signal_phase cfg t = [Dir.north, Dir.south])
    ∧ (20 ≤ t % 40 → signal_phase cfg t = [Dir.east, Dir.west]) := by
  unfold signal_phase Cfg.cycle_total
  rw [hns, hew]
  constructor
  · intro h
    rw [if_pos h]
  · intro h
    rw [if_neg (by omega)]

/-- Witness for C9: concrete ticks in each half of the default cycle. -/
theorem signal_correctness_w :
    signal_phase defaultCfg 5 = [Dir.north, Dir.south]
    ∧ signal_phase defaultCfg 25 = [Dir.east, Dir.west] :=
  ⟨(signal_correctness defaultCfg 5 rfl rfl).1 (by decide),
   (signal_correctness defaultCfg 25 rfl rfl).2 (by decide)⟩

/-- C10: the random turn draw precedes the destination capacity check.
When the head car of an approach draws a destination whose link is full,
the whole service step returns the original state with only the seed
advanced by one LCG step and the served count unchanged: the queue and
every buffer are untouched but the draw has been consumed, so the retry on
a later tick draws afresh; and there are seeds (for example 0) on which
consecutive draws classify to different turns, so the redrawn destination
can differ. -/
theorem blocked_draw_consumed (cfg : Cfg) (t : ℕ) (u node : NodeId)
    (approach : Dir) (fuel : ℕ) (st : SimState) (served : ℕ) (car : Car)
    (qrest : List Car) (next : NodeId)
    (hq : st.stopped (u, node) = car :: qrest)
    (hd : dest_of cfg.n node (turn_direction approach st).1 = some next)
    (hfull : cfg.link_in_transit_cap ≤ (st.in_transit (node, next)).length) :
    (serveApproach cfg t u node approach (fuel + 1) st served
        = ({ st with seed := randStep st.seed }, served))
    ∧ ∃ s : ℕ, turn_of (randStep s) ≠ turn_of (randStep (randStep s)) :=
  ⟨serveApproach_cons_blocked cfg t u node approach fuel st served car
      qrest next hq hd (by omega),
   ⟨0, by decide⟩⟩

/-- Witness for C10: the concrete blocked service consumes the draw (seed
42 advances) while moving nothing. -/
theorem blocked_draw_consumed_w :
    (serveApproach cfgBlocked 0 (2, 1) (1, 1) Dir.north 1 stBlocked 0
        = ({ stBlocked with seed := randStep stBlocked.seed }, 0))
    ∧ ∃ s : ℕ, turn_of (randStep s) ≠ turn_of (randStep (randStep s)) :=
  blocked_draw_consumed cfgBlocked 0 (2, 1) (1, 1) Dir.north 0 stBlocked 0
    { id := 0, t_enter := 0 } [] (0, 1) (by decide) (by decide) (by decide)

/-- C6: turn selection.  For every representable uniform draw (a scaled
value v with r = v / 2^32 in [0,1)), the chosen turn is Left exactly when
r lies in [0, 0.25), Straight exactly when r lies in [0.25, 0.75) and Right
exactly when r lies in [0.75, 1); and the departure direction is the
approach rotated one step counter-clockwise in the clockwise order
N, E, S, W for Left, one step clockwise for Right, and unchanged for
Straight. -/
theorem turn_selection (v : ℕ) (hv : v < 4294967296) :
    ((turn_of v = Turn.left ↔ (v : ℚ) / 4294967296 < 1 / 4)
     ∧ (turn_of v = Turn.straight
        ↔ (1 / 4 ≤ (v : ℚ) / 4294967296 ∧ (v : ℚ) / 4294967296 < 3 / 4))
     ∧ (turn_of v = Turn.right ↔ 3 / 4 ≤ (v : ℚ) / 4294967296))
    ∧ ∀ a : Dir, apply_turn a Turn.left = specRotCCW a
      ∧ apply_turn a Turn.straight = a
      ∧ apply_turn a Turn.right = specRotCW a := by
  have hpos : (0 : ℚ) < 4294967296 := by norm_num
  have k1 : ((v : ℚ) / 4294967296 < 1 / 4) ↔ v < 1073741824 := by
    rw [div_lt_iff₀ hpos]
    norm_num
  have k2 : ((v : ℚ) / 4294967296 < 3 / 4) ↔ v < 3221225472 := by
    rw [div_lt_iff₀ hpos]
    norm_num
  have kle1 : ((1 : ℚ) / 4 ≤ (v : ℚ) / 4294967296) ↔ 1073741824 ≤ v := by
    rw [le_div_iff₀ hpos]
    norm_num
  have kle2 : ((3 : ℚ) / 4 ≤ (v : ℚ) / 4294967296) ↔ 3221225472 ≤ v := by
    rw [le_div_iff₀ hpos]
    norm_num
  have hchar : (turn_of v = Turn.left ↔ v < 1073741824)
      ∧ (turn_of v = Turn.straight ↔ (1073741824 ≤ v ∧ v < 3221225472))
      ∧ (turn_of v = Turn.right ↔ 3221225472 ≤ v) := by
    unfold turn_of TURN_LEFT_CUT TURN_MID_CUT
    split_ifs with h1 h2 <;> refine ⟨?_, ?_, ?_⟩ <;> simp <;> omega
  refine ⟨⟨?_, ?_, ?_⟩, ?_⟩
  · rw [hchar.1, k1]
  · rw [hchar.2.1, kle1, k2]
  · rw [hchar.2.2, kle2]
  · intro a
    cases a <;> exact ⟨by decide, by decide, by decide⟩

/-- Witness for C6: the draw 0.5 (scaled 2^31) is a straight turn, and a
left turn from a north approach departs west. -/
theorem turn_selection_w :
    (turn_of 2147483648 = Turn.straight
      ↔ (1 / 4 ≤ ((2147483648 : ℕ) : ℚ) / 4294967296
         ∧ ((2147483648 : ℕ) : ℚ) / 4294967296 < 3 / 4))
    ∧ apply_turn Dir.north Turn.left = specRotCCW Dir.north :=
  ⟨((turn_selection 2147483648 (by norm_num)).1).2.1,
   (((turn_selection 2147483648 (by norm_num)).2) Dir.north).1⟩

/-- C8: final metrics.  After the loop, throughput is the completed count
divided by TOTAL_TICKS; mean travel time is the travel-time sum divided by
the completed count and 0 when nothing completed; mean vehicles in system
is the occupancy sum divided by the sample count and 0 without samples.
The guarded conditionals (and total division on ℚ) mean no division ever
faults. -/
theorem final_metrics (cfg : Cfg) :
    ((run_simulation cfg).throughput
        = ((run_simulation cfg).completed : ℚ) / (cfg.total_ticks : ℚ))
    ∧ ((run_simulation cfg).completed ≠ 0 →
        (run_simulation cfg).mean_tt
          = ((run_simulation cfg).sum_tt : ℚ)
            / ((run_simulation cfg).completed : ℚ))
    ∧ ((run_simulation cfg).completed = 0 → (run_simulation cfg).mean_tt = 0)
    ∧ ((run_simulation cfg).samples ≠ 0 →
        (run_simulation cfg).mean_queued
          = ((run_simulation cfg).sum_queue : ℚ)
            / ((run_simulation cfg).samples : ℚ))
    ∧ ((run_simulation cfg).samples = 0 →
        (run_simulation cfg).mean_queued = 0) := by
  simp only [run_simulation]
  refine ⟨trivial, ?_, ?_, ?_, ?_⟩
  · intro h
    rw [if_pos (by omega)]
  · intro h
    rw [if_neg (by omega)]
  · intro h
    rw [if_pos (by omega)]
  · intro h
    rw [if_neg (by omega)]

set_option maxRecDepth 200000 in
/-- Witness for C8: a zero-tick run has zero means, and a concrete short
run with completions realizes the quotient forms. -/
theorem final_metrics_w :
    (run_simulation cfgZero).mean_tt = 0
    ∧ (run_simulation cfgZero).mean_queued = 0
    ∧ (run_simulation cfgSmall).mean_tt
        = ((run_simulation cfgSmall).sum_tt : ℚ)
          / ((run_simulation cfgSmall).completed : ℚ)
    ∧ (run_simulation cfgSmall).mean_queued
        = ((run_simulation cfgSmall).sum_queue : ℚ)
          / ((run_simulation cfgSmall).samples : ℚ) :=
  ⟨(final_metrics cfgZero).2.2.1 (by decide),
   (final_metrics cfgZero).2.2.2.2 (by decide),
   (final_metrics cfgSmall).2.1 (by decide),
   (final_metrics cfgSmall).2.2.2.1 (by decide)⟩

end Traffic
